import Mathlib

/-!
Shallow embedding of the sliding-window rate limiter (admission-control
core): the module state `redisClient` / `inMemoryStore`, the functions
`checkRateLimit`, `checkRateLimitRedis`, `checkRateLimitMemory` and
`getRateLimitStatus`, and the theorems settling the frozen claims about
them.

Times, weights and limits are JavaScript numbers that only ever hold
integral values here; they are embedded as `Int`.  The absent optional
`retryAfter` field is `none`.  The uncaught TypeError that the in-memory
deny branch raises when it reads `requests[0].timestamp` on an empty list
is modelled by an `Option` result (`none` = exception, store unchanged).
A Redis backend outage (any operation inside the `try` block throwing) is
modelled by the `available` flag of the client.
-/

namespace RateLimiter

/-- One recorded request of the in-memory store: a `{ timestamp, weight }`
pair. -/
structure Req where
  timestamp : Int
  weight : Int
deriving DecidableEq, Repr

/-- The object returned by `checkRateLimit`; `retryAfter = none` models the
absent optional field. -/
structure Decision where
  allowed : Bool
  remaining : Int
  resetTime : Int
  retryAfter : Option Int
deriving DecidableEq, Repr

/-- Integer form of `Math.ceil(a / 1000)`: `Int` division `/` rounds toward
negative infinity for a positive divisor, so the ceiling is obtained by
negating twice. -/
def ceilDiv1000 (a : Int) : Int := -((-a) / 1000)

/-- The initial contents of `inMemoryStore`: a `Map` with no entries, every
key reading as the empty list (`inMemoryStore.get(key) || []`). -/
def emptyStore : String → List Req := fun _ => []

/-- The `reduce((sum, req) => sum + req.weight, 0)` of the source. -/
def weightSum (l : List Req) : Int := (l.map Req.weight).sum

/-- In-memory sliding-window check (`checkRateLimitMemory`).  Returns the
decision together with the updated store.  In the deny branch the source
reads `requests[0]`; when the pruned list is empty that is `undefined` and
`oldestRequest.timestamp` throws a TypeError before the store is written:
result `(none, store)`. -/
def checkRateLimitMemory (store : String → List Req) (key : String)
    (maxRequests windowMs weight now : Int) :
    Option Decision × (String → List Req) :=
  let windowStart := now - windowMs
  let requests := (store key).filter fun req => decide (windowStart < req.timestamp)
  let totalWeight := weightSum requests
  if maxRequests < totalWeight + weight then
    match requests with
    | [] => (none, store)
    | oldestRequest :: _ =>
      let retryAfter := ceilDiv1000 (windowMs - (now - oldestRequest.timestamp))
      (some { allowed := false, remaining := 0,
              resetTime := now + retryAfter * 1000, retryAfter := some retryAfter },
       fun k => if k = key then requests else store k)
  else
    (some { allowed := true, remaining := maxRequests - (totalWeight + weight),
            resetTime := now + windowMs, retryAfter := none },
     fun k => if k = key then requests ++ [{ timestamp := now, weight := weight }]
              else store k)

/-- The Redis connection as `checkRateLimitRedis` uses it.  `data` holds the
sorted-set contents per Redis key; each member string `now + "-" + random`
parses back (via `parseInt`) to its score, so members are embedded as their
scores.  `available = false` means every backend operation inside the `try`
block throws, landing in the `catch`. -/
structure RedisClient where
  data : String → List Int
  available : Bool

/-- Redis sliding-window check (`checkRateLimitRedis`).  `zRemRangeByScore
(-inf, windowStart)` removes scores `≤ windowStart`; `zCard` counts the
rest; `zRange 0 0` fetches the lowest-scored member; `zAdd` inserts a
member scored `now`.  The surrounding `try`/`catch` turns any backend error
into the fail-open decision. -/
def checkRateLimitRedis (client : RedisClient) (key : String)
    (maxRequests windowMs weight now : Int) : Decision × RedisClient :=
  let redisKey := "ratelimit:" ++ key
  let windowStart := now - windowMs
  if client.available then
    let members := (client.data redisKey).filter fun s => decide (windowStart < s)
    let currentWeight : Int := members.length
    if maxRequests < currentWeight + weight then
      let retryAfter :=
        match members.min? with
        | none => 0
        | some oldestTime => ceilDiv1000 (windowMs - (now - oldestTime))
      ({ allowed := false, remaining := 0, resetTime := now + retryAfter * 1000,
         retryAfter := some retryAfter },
       { client with data := fun k => if k = redisKey then members else client.data k })
    else
      ({ allowed := true, remaining := maxRequests - (currentWeight + weight),
         resetTime := now + windowMs, retryAfter := none },
       { client with data := fun k => if k = redisKey then members ++ [now]
                                      else client.data k })
  else
    ({ allowed := true, remaining := maxRequests, resetTime := now + windowMs,
       retryAfter := none },
     client)

/-- The module-level mutable state of the rate limiter: the nullable
`redisClient` and the `inMemoryStore` map. -/
structure LimiterState where
  redisClient : Option RedisClient
  inMemoryStore : String → List Req

/-- The public `checkRateLimit`: routes to the Redis store when
`redisClient` is set, otherwise to the in-memory store. -/
def checkRateLimit (st : LimiterState) (key : String)
    (maxRequests windowMs weight now : Int) : Option Decision × LimiterState :=
  match st.redisClient with
  | some client =>
    let r := checkRateLimitRedis client key maxRequests windowMs weight now
    (some r.1, { st with redisClient := some r.2 })
  | none =>
    let r := checkRateLimitMemory st.inMemoryStore key maxRequests windowMs weight now
    (r.1, { st with inMemoryStore := r.2 })

/-- The monitoring `getRateLimitStatus`: `zCard` on the Redis path (throws
when the backend is down: `none`), a plain weight sum on the memory path.
Neither path writes to a store, which the read-only result type records. -/
def getRateLimitStatus (st : LimiterState) (key : String) (now : Int) :
    Option (Int × Int) :=
  match st.redisClient with
  | some client =>
    if client.available then
      some (((client.data ("ratelimit:" ++ key)).length : Int), now)
    else none
  | none => some (weightSum (st.inMemoryStore key), now)

/-- Arguments of one `checkRateLimitMemory` call in a trace. -/
structure CallArgs where
  key : String
  maxRequests : Int
  windowMs : Int
  weight : Int
  time : Int

/-- Runs a trace of in-memory checks, threading the store. -/
def runMemCalls : List CallArgs → (String → List Req) → (String → List Req)
  | [], store => store
  | c :: rest, store =>
      runMemCalls rest
        (checkRateLimitMemory store c.key c.maxRequests c.windowMs c.weight c.time).2

/-- Runs a trace of weight-1 in-memory checks on one key with fixed
`maxRequests` and `windowMs`, one call per listed time. -/
def runUnitCalls (key : String) (maxRequests windowMs : Int) :
    List Int → (String → List Req) → (String → List Req)
  | [], store => store
  | t :: rest, store =>
      runUnitCalls key maxRequests windowMs rest
        (checkRateLimitMemory store key maxRequests windowMs 1 t).2

/-- A limiter whose Redis client is connected as far as routing is
concerned but whose backend operations all fail at runtime. -/
def downState : LimiterState :=
  { redisClient := some { data := fun _ => [], available := false },
    inMemoryStore := emptyStore }

/-- A limiter on the in-memory path with no recorded events. -/
def freshState : LimiterState :=
  { redisClient := none, inMemoryStore := emptyStore }

/-- A limiter on the in-memory path holding one stale event for key `"k"`:
recorded at time 0 with weight 1. -/
def staleState : LimiterState :=
  { redisClient := none,
    inMemoryStore := fun k => if k = "k" then [{ timestamp := 0, weight := 1 }] else [] }

/-- An in-memory store holding one event for key `"k"`: timestamp 5,
weight 1. -/
def oneEventStore : String → List Req :=
  fun k => if k = "k" then [{ timestamp := 5, weight := 1 }] else []

/-- A reachable Redis client holding one member of score 5 for key `"k"`. -/
def oneEventClient : RedisClient :=
  { data := fun k => if k = "ratelimit:k" then [5] else [], available := true }

/-- A reachable Redis client with no stored members. -/
def emptyClient : RedisClient := { data := fun _ => [], available := true }

/-- The denied decision produced by `checkRateLimitMemory oneEventStore`
with `maxRequests = 1`, `windowMs = 100`, `weight = 1`, `now = 10`. -/
def deniedDecision : Decision :=
  { allowed := false, remaining := 0, resetTime := 1010, retryAfter := some 1 }

/-- Two weight-1 calls on key `"k"` at times 0 and 5. -/
def twoCalls : List CallArgs :=
  [{ key := "k", maxRequests := 10, windowMs := 60000, weight := 1, time := 0 },
   { key := "k", maxRequests := 10, windowMs := 60000, weight := 1, time := 5 }]

example : ceilDiv1000 0 = 0 := by decide
example : ceilDiv1000 1 = 1 := by decide
example : ceilDiv1000 1000 = 1 := by decide
example : ceilDiv1000 (-1000) = -1 := by decide
example : ceilDiv1000 95 = 1 := by decide

example :
    (checkRateLimitMemory emptyStore "k" 10 60000 1 0).1 =
      some { allowed := true, remaining := 9, resetTime := 60000, retryAfter := none } := by
  decide

@[simp] theorem weightSum_nil : weightSum [] = 0 := rfl

@[simp] theorem weightSum_cons (r : Req) (l : List Req) :
    weightSum (r :: l) = r.weight + weightSum l := by
  simp [weightSum]

@[simp] theorem weightSum_append (l₁ l₂ : List Req) :
    weightSum (l₁ ++ l₂) = weightSum l₁ + weightSum l₂ := by
  simp [weightSum]

theorem weightSum_filter_le (p : Req → Bool) (l : List Req)
    (hnn : ∀ r ∈ l, 0 ≤ r.weight) :
    weightSum (l.filter p) ≤ weightSum l := by
  induction l with
  | nil => simp
  | cons a tl ih =>
    have ha : 0 ≤ a.weight := hnn a (by simp)
    have htl : ∀ r ∈ tl, 0 ≤ r.weight := fun r hr => hnn r (by simp [hr])
    rw [List.filter_cons]
    by_cases hp : p a = true
    · rw [if_pos hp, weightSum_cons, weightSum_cons]
      exact add_le_add_left (ih htl) _
    · rw [if_neg hp, weightSum_cons]
      have := ih htl
      omega

theorem weightSum_filter_lt (p : Req → Bool) (l : List Req) (r0 : Req)
    (hw0 : 0 < r0.weight) :
    r0 ∈ l → p r0 = false → (∀ r ∈ l, 0 ≤ r.weight) →
      weightSum (l.filter p) < weightSum l := by
  induction l with
  | nil => intro h0; cases h0
  | cons a tl ih =>
    intro h0 hp hnn
    have ha : 0 ≤ a.weight := hnn a (by simp)
    have htl : ∀ r ∈ tl, 0 ≤ r.weight := fun r hr => hnn r (by simp [hr])
    have hfil := weightSum_filter_le p tl htl
    rw [List.filter_cons]
    rcases List.mem_cons.mp h0 with h | h
    · subst h
      rw [if_neg (by simp [hp]), weightSum_cons]
      omega
    · by_cases hpa : p a = true
      · rw [if_pos hpa, weightSum_cons, weightSum_cons]
        exact add_lt_add_left (ih h hp htl) _
      · rw [if_neg hpa, weightSum_cons]
        have := ih h hp htl
        omega

theorem update_apply_eq {α : Type} (f : String → α) (key : String) (a : α) :
    (fun k => if k = key then a else f k) key = a := by simp

theorem update_apply_ne {α : Type} (f : String → α) (key k : String) (a : α)
    (h : ¬ k = key) :
    (fun k2 => if k2 = key then a else f k2) k = f k := by simp [h]

theorem min?_mem_le {l : List Int} {m : Int} (h : l.min? = some m) :
    m ∈ l ∧ ∀ x ∈ l, m ≤ x :=
  ⟨List.min?_mem (fun a b => min_choice a b) h,
   (List.le_min?_iff (fun _ _ _ => le_min_iff) h).mp (le_refl m)⟩

theorem ceilDiv1000_nonneg {a : Int} (h : 0 ≤ a) : 0 ≤ ceilDiv1000 a := by
  unfold ceilDiv1000
  have h2 : (-a) / 1000 ≤ 0 / 1000 :=
    Int.ediv_le_ediv (by norm_num) (by omega)
  simp only [Int.zero_ediv] at h2
  omega

theorem ceilDiv1000_pos {a : Int} (h : 0 < a) : 1 ≤ ceilDiv1000 a := by
  unfold ceilDiv1000
  have h2 : (-a) / 1000 ≤ (-1 : Int) / 1000 :=
    Int.ediv_le_ediv (by norm_num) (by omega)
  have h3 : (-1 : Int) / 1000 = -1 := by decide
  omega

theorem ceilDiv1000_mono {a b : Int} (h : a ≤ b) : ceilDiv1000 a ≤ ceilDiv1000 b := by
  unfold ceilDiv1000
  have h2 : (-b) / 1000 ≤ (-a) / 1000 :=
    Int.ediv_le_ediv (by norm_num) (by omega)
  omega

/-- Case analysis of `checkRateLimitMemory`: the crash branch (deny with an
empty pruned list), the deny branch, and the admit branch, each with the
branch condition, the returned decision, and the store after the call. -/
theorem memCheck_spec (store : String → List Req) (key : String) (M W w now : Int) :
    ((store key).filter (fun r => decide (now - W < r.timestamp)) = [] ∧ M < w ∧
      (checkRateLimitMemory store key M W w now).1 = none ∧
      (checkRateLimitMemory store key M W w now).2 = store) ∨
    (∃ oldest rest,
      (store key).filter (fun r => decide (now - W < r.timestamp)) = oldest :: rest ∧
      M < weightSum ((store key).filter fun r => decide (now - W < r.timestamp)) + w ∧
      (checkRateLimitMemory store key M W w now).1 =
        some { allowed := false, remaining := 0,
               resetTime := now + ceilDiv1000 (W - (now - oldest.timestamp)) * 1000,
               retryAfter := some (ceilDiv1000 (W - (now - oldest.timestamp))) } ∧
      (checkRateLimitMemory store key M W w now).2 key =
        ((store key).filter fun r => decide (now - W < r.timestamp)) ∧
      ∀ k, ¬ k = key → (checkRateLimitMemory store key M W w now).2 k = store k) ∨
    (¬ (M < weightSum ((store key).filter fun r => decide (now - W < r.timestamp)) + w) ∧
      (checkRateLimitMemory store key M W w now).1 =
        some { allowed := true,
               remaining :=
                 M - (weightSum ((store key).filter fun r => decide (now - W < r.timestamp)) + w),
               resetTime := now + W, retryAfter := none } ∧
      (checkRateLimitMemory store key M W w now).2 key =
        ((store key).filter fun r => decide (now - W < r.timestamp)) ++
          [{ timestamp := now, weight := w }] ∧
      ∀ k, ¬ k = key → (checkRateLimitMemory store key M W w now).2 k = store k) := by
  by_cases hc : M < weightSum ((store key).filter fun r => decide (now - W < r.timestamp)) + w
  · cases hp : (store key).filter fun r => decide (now - W < r.timestamp) with
    | nil =>
      left
      rw [hp] at hc
      have hpair : checkRateLimitMemory store key M W w now = (none, store) := by
        simp only [checkRateLimitMemory]
        rw [hp, if_pos hc]
      exact ⟨rfl, by simpa using hc, by rw [hpair], by rw [hpair]⟩
    | cons oldest rest =>
      right; left
      rw [hp] at hc
      have hpair : checkRateLimitMemory store key M W w now =
          (some { allowed := false, remaining := 0,
                  resetTime := now + ceilDiv1000 (W - (now - oldest.timestamp)) * 1000,
                  retryAfter := some (ceilDiv1000 (W - (now - oldest.timestamp))) },
           fun k => if k = key then oldest :: rest else store k) := by
        simp only [checkRateLimitMemory]
        rw [hp, if_pos hc]
      refine ⟨oldest, rest, rfl, hc, by rw [hpair], ?_, ?_⟩
      · rw [hpair]
        exact update_apply_eq store key _
      · intro k hk
        rw [hpair]
        exact update_apply_ne store key k _ hk
  · right; right
    have hpair : checkRateLimitMemory store key M W w now =
        (some { allowed := true,
                remaining :=
                  M - (weightSum ((store key).filter fun r => decide (now - W < r.timestamp)) + w),
                resetTime := now + W, retryAfter := none },
         fun k => if k = key
                  then ((store key).filter fun r => decide (now - W < r.timestamp)) ++
                       [{ timestamp := now, weight := w }]
                  else store k) := by
      simp only [checkRateLimitMemory]
      rw [if_neg hc]
    refine ⟨hc, by rw [hpair], ?_, ?_⟩
    · rw [hpair]
      exact update_apply_eq store key _
    · intro k hk
      rw [hpair]
      exact update_apply_ne store key k _ hk

/-- Case analysis of `checkRateLimitRedis`: the catch branch (backend
down), the deny branch, and the admit branch, each with the branch
condition, the returned decision, and the sorted-set contents after the
call. -/
theorem redisCheck_spec (client : RedisClient) (key : String) (M W w now : Int) :
    (client.available = false ∧
      (checkRateLimitRedis client key M W w now).1 =
        { allowed := true, remaining := M, resetTime := now + W, retryAfter := none } ∧
      (checkRateLimitRedis client key M W w now).2 = client) ∨
    (client.available = true ∧
      M < ((((client.data ("ratelimit:" ++ key)).filter
              fun s => decide (now - W < s)).length : Int)) + w ∧
      (∃ ra,
        ((((client.data ("ratelimit:" ++ key)).filter
            fun s => decide (now - W < s)).min? = none ∧ ra = 0) ∨
         (∃ m, (((client.data ("ratelimit:" ++ key)).filter
                  fun s => decide (now - W < s)).min? = some m ∧
                ra = ceilDiv1000 (W - (now - m))))) ∧
        (checkRateLimitRedis client key M W w now).1 =
          { allowed := false, remaining := 0, resetTime := now + ra * 1000,
            retryAfter := some ra }) ∧
      (checkRateLimitRedis client key M W w now).2.data ("ratelimit:" ++ key) =
        ((client.data ("ratelimit:" ++ key)).filter fun s => decide (now - W < s)) ∧
      (∀ k, ¬ k = "ratelimit:" ++ key →
        (checkRateLimitRedis client key M W w now).2.data k = client.data k) ∧
      (checkRateLimitRedis client key M W w now).2.available = true) ∨
    (client.available = true ∧
      ¬ (M < ((((client.data ("ratelimit:" ++ key)).filter
                 fun s => decide (now - W < s)).length : Int)) + w) ∧
      (checkRateLimitRedis client key M W w now).1 =
        { allowed := true,
          remaining :=
            M - (((((client.data ("ratelimit:" ++ key)).filter
                     fun s => decide (now - W < s)).length : Int)) + w),
          resetTime := now + W, retryAfter := none } ∧
      (checkRateLimitRedis client key M W w now).2.data ("ratelimit:" ++ key) =
        ((client.data ("ratelimit:" ++ key)).filter
          fun s => decide (now - W < s)) ++ [now] ∧
      (∀ k, ¬ k = "ratelimit:" ++ key →
        (checkRateLimitRedis client key M W w now).2.data k = client.data k) ∧
      (checkRateLimitRedis client key M W w now).2.available = true) := by
  by_cases hav : client.available = true
  · by_cases hc : M < ((((client.data ("ratelimit:" ++ key)).filter
        fun s => decide (now - W < s)).length : Int)) + w
    · right; left
      have hpair : checkRateLimitRedis client key M W w now =
          ({ allowed := false, remaining := 0,
             resetTime := now +
               (match ((client.data ("ratelimit:" ++ key)).filter
                   fun s => decide (now - W < s)).min? with
                 | none => 0
                 | some oldestTime => ceilDiv1000 (W - (now - oldestTime))) * 1000,
             retryAfter := some (match ((client.data ("ratelimit:" ++ key)).filter
                   fun s => decide (now - W < s)).min? with
                 | none => 0
                 | some oldestTime => ceilDiv1000 (W - (now - oldestTime))) },
           { client with
             data := fun k => if k = "ratelimit:" ++ key
                              then (client.data ("ratelimit:" ++ key)).filter
                                     fun s => decide (now - W < s)
                              else client.data k }) := by
        simp only [checkRateLimitRedis]
        rw [if_pos hav, if_pos hc]
      refine ⟨hav, hc, ?_, ?_, ?_, ?_⟩
      · cases hm : ((client.data ("ratelimit:" ++ key)).filter
            fun s => decide (now - W < s)).min? with
        | none =>
          refine ⟨0, Or.inl ⟨rfl, rfl⟩, ?_⟩
          rw [hpair, hm]
        | some m =>
          refine ⟨ceilDiv1000 (W - (now - m)), Or.inr ⟨m, rfl, rfl⟩, ?_⟩
          rw [hpair, hm]
      · rw [hpair]
        exact update_apply_eq client.data ("ratelimit:" ++ key) _
      · intro k hk
        rw [hpair]
        exact update_apply_ne client.data ("ratelimit:" ++ key) k _ hk
      · rw [hpair]
        exact hav
    · right; right
      have hpair : checkRateLimitRedis client key M W w now =
          ({ allowed := true,
             remaining :=
               M - (((((client.data ("ratelimit:" ++ key)).filter
                        fun s => decide (now - W < s)).length : Int)) + w),
             resetTime := now + W, retryAfter := none },
           { client with
             data := fun k => if k = "ratelimit:" ++ key
                              then ((client.data ("ratelimit:" ++ key)).filter
                                      fun s => decide (now - W < s)) ++ [now]
                              else client.data k }) := by
        simp only [checkRateLimitRedis]
        rw [if_pos hav, if_neg hc]
      refine ⟨hav, hc, by rw [hpair], ?_, ?_, ?_⟩
      · rw [hpair]
        exact update_apply_eq client.data ("ratelimit:" ++ key) _
      · intro k hk
        rw [hpair]
        exact update_apply_ne client.data ("ratelimit:" ++ key) k _ hk
      · rw [hpair]
        exact hav
  · left
    have hav2 : client.available = false := by
      cases h : client.available
      · rfl
      · exact absurd h hav
    have hpair : checkRateLimitRedis client key M W w now =
        ({ allowed := true, remaining := M, resetTime := now + W, retryAfter := none },
         client) := by
      simp only [checkRateLimitRedis]
      rw [if_neg hav]
    exact ⟨hav2, by rw [hpair], by rw [hpair]⟩

/-- C2 (code bug): a call with `weight > maxRequests` against the in-memory
store on a key with no recorded events is NOT denied: the deny branch reads
`requests[0].timestamp` with `requests` empty, so the source throws an
uncaught TypeError (modelled as result `none`) instead of returning a
`Decision`, and the store is left untouched.  Failing input:
`checkRateLimitMemory` on an empty store with `maxRequests = 10`,
`windowMs = 60000`, `weight = 11`, `now = 0`.  (The Redis path guards this
case with `oldest && oldest.length > 0`; the in-memory path omits the
guard, so the spec's "always denied outright" is the evident intent.) -/
theorem c2_weight_exceeds_crash :
    (checkRateLimitMemory emptyStore "k" 10 60000 11 0).1 = none ∧
    (checkRateLimitMemory emptyStore "k" 10 60000 11 0).2 "k" = [] :=
  ⟨rfl, rfl⟩

/-- C3: when the backend errors, `checkRateLimitRedis` lands in the `catch`
and returns the fail-open decision `allowed = true`,
`remaining = maxRequests`, no `retryAfter` field, with the client state
unchanged — the error is never propagated to the caller. -/
theorem c3_fail_open (client : RedisClient) (key : String) (M W w now : Int)
    (h : client.available = false) :
    checkRateLimitRedis client key M W w now =
      ({ allowed := true, remaining := M, resetTime := now + W, retryAfter := none },
       client) := by
  simp [checkRateLimitRedis, h]

/-- C3 witness: concrete fail-open call with an unavailable backend. -/
theorem c3_fail_open_witness :
    checkRateLimitRedis { data := fun _ => [], available := false } "k" 10 60000 1 0 =
      ({ allowed := true, remaining := 10, resetTime := 60000, retryAfter := none },
       { data := fun _ => [], available := false }) :=
  c3_fail_open { data := fun _ => [], available := false } "k" 10 60000 1 0 rfl

/-- C4 counterexample: after a `checkRateLimit` call whose Redis backend
fails at runtime, the selector does NOT transition to the in-memory store:
`redisClient` is still set, and the next call is again answered by the
Redis fail-open path (`remaining = 10 = maxRequests`, whereas in-memory
routing would admit and record the event, yielding `remaining = 9`); the
in-memory store stays empty. -/
theorem c4_no_fallback_counterexample :
    (checkRateLimit downState "k" 10 60000 1 0).2.redisClient.isSome = true ∧
    (checkRateLimit (checkRateLimit downState "k" 10 60000 1 0).2
        "k" 10 60000 1 5).1 =
      some { allowed := true, remaining := 10, resetTime := 60005, retryAfter := none } ∧
    (checkRateLimit (checkRateLimit downState "k" 10 60000 1 0).2
        "k" 10 60000 1 5).2.inMemoryStore "k" = [] :=
  ⟨rfl, rfl, rfl⟩

/-- C4 amended: a runtime failure of a Redis-routed `checkRateLimit` call
produces a fail-open decision for that call only; the selector state does
not change — `redisClient` remains the same connected client, so subsequent
calls are still routed to the Redis store (the catch block never clears
`redisClient`). -/
theorem c4_amended_no_transition (st : LimiterState) (b : RedisClient)
    (key : String) (M W w now : Int)
    (h1 : st.redisClient = some b) (h2 : b.available = false) :
    (checkRateLimit st key M W w now).1 =
      some { allowed := true, remaining := M, resetTime := now + W, retryAfter := none } ∧
    (checkRateLimit st key M W w now).2.redisClient = some b := by
  cases st with
  | mk rc mem =>
    cases rc with
    | none => cases h1
    | some b2 =>
      have hb : b2 = b := by injection h1
      subst hb
      simp [checkRateLimit, checkRateLimitRedis, h2]

/-- C4 amended witness: the fail-open decision and unchanged routing at a
concrete failing call. -/
theorem c4_amended_witness :
    (checkRateLimit downState "k" 10 60000 1 0).1 =
      some { allowed := true, remaining := 10, resetTime := 60000, retryAfter := none } ∧
    (checkRateLimit downState "k" 10 60000 1 0).2.redisClient =
      some { data := fun _ => [], available := false } :=
  c4_amended_no_transition downState { data := fun _ => [], available := false }
    "k" 10 60000 1 0 rfl rfl

/-- C5 counterexample: `checkRateLimit` performs no parameter validation.
A call with the non-positive `weight = 0` is not rejected: it reaches the
in-memory store, records an event, and returns a `Decision`
(`allowed = true`) — refuting "rejected as a programming error before any
store is read or mutated, and no Decision is produced". -/
theorem c5_no_validation_counterexample :
    (checkRateLimit freshState "k" 10 60000 0 5).1.isSome = true ∧
    (checkRateLimit freshState "k" 10 60000 0 5).2.inMemoryStore "k" =
      [{ timestamp := 5, weight := 0 }] :=
  ⟨rfl, rfl⟩

/-- C5 amended: `checkRateLimit` validates nothing; a call with
non-positive `weight` (likewise any non-positive `maxRequests`/`windowMs`)
is forwarded to the active store.  On the in-memory path with an empty
store and `0 < maxRequests`, such a call is admitted, recorded, and
answered with a normal `Decision`. -/
theorem c5_amended_forwarded (key : String) (M W w now : Int)
    (hw : w ≤ 0) (hM : 0 < M) :
    (checkRateLimit freshState key M W w now).1 =
      some { allowed := true, remaining := M - w, resetTime := now + W,
             retryAfter := none } ∧
    (checkRateLimit freshState key M W w now).2.inMemoryStore key =
      [{ timestamp := now, weight := w }] := by
  have hcond : ¬ (M < w) := by omega
  simp [checkRateLimit, freshState, checkRateLimitMemory, emptyStore, hcond]

/-- C5 amended witness: a concrete `weight = 0` call admitted and
recorded. -/
theorem c5_amended_witness :
    (checkRateLimit freshState "k" 10 60000 0 5).1 =
      some { allowed := true, remaining := 10 - 0, resetTime := 5 + 60000,
             retryAfter := none } ∧
    (checkRateLimit freshState "k" 10 60000 0 5).2.inMemoryStore "k" =
      [{ timestamp := 5, weight := 0 }] :=
  c5_amended_forwarded "k" 10 60000 0 5 (by decide) (by decide)

/-- C9 counterexample: `getRateLimitStatus` reports `currentUsage = 1` for
a key whose only recorded event (timestamp 0, weight 1) lies outside every
current window of length `windowMs = 1000` at `now = 1000000` — the
non-expired weight is 0, yet the expired-but-unpruned event contributes,
refuting "events outside the current window never contribute". -/
theorem c9_status_counterexample :
    getRateLimitStatus staleState "k" 1000000 = some (1, 1000000) ∧
    weightSum ((staleState.inMemoryStore "k").filter
      fun r => decide ((1000000 : Int) - 1000 < r.timestamp)) = 0 :=
  ⟨rfl, rfl⟩

/-- C9 amended: `getRateLimitStatus` performs no store write (its result is
read-only in the embedding, as in the source), but the `currentUsage` it
reports on the in-memory path is the weight sum over ALL recorded events of
the key — the function takes no window parameter and prunes nothing, so an
expired event with positive weight strictly inflates `currentUsage` above
the non-expired sum. -/
theorem c9_amended_status (st : LimiterState) (key : String) (now W : Int)
    (hred : st.redisClient = none)
    (hex : ∃ r ∈ st.inMemoryStore key, r.timestamp ≤ now - W ∧ 0 < r.weight)
    (hnn : ∀ r ∈ st.inMemoryStore key, 0 ≤ r.weight) :
    getRateLimitStatus st key now = some (weightSum (st.inMemoryStore key), now) ∧
    weightSum ((st.inMemoryStore key).filter
        fun r => decide (now - W < r.timestamp)) <
      weightSum (st.inMemoryStore key) := by
  obtain ⟨r0, hr0, hts, hw0⟩ := hex
  constructor
  · cases st with
    | mk rc mem =>
      cases rc with
      | none => rfl
      | some b => cases hred
  · refine weightSum_filter_lt _ _ r0 hw0 hr0 ?_ hnn
    simp only [decide_eq_false_iff_not, not_lt]
    exact hts

/-- C9 amended witness: the stale event of `staleState` inflates the
reported usage strictly above the non-expired sum. -/
theorem c9_amended_witness :
    getRateLimitStatus staleState "k" 1000000 =
      some (weightSum (staleState.inMemoryStore "k"), 1000000) ∧
    weightSum ((staleState.inMemoryStore "k").filter
        fun r => decide ((1000000 : Int) - 1000 < r.timestamp)) <
      weightSum (staleState.inMemoryStore "k") :=
  c9_amended_status staleState "k" 1000000 1000 rfl
    ⟨{ timestamp := 0, weight := 1 }, by decide, by decide, by decide⟩
    (by decide)

/-- C6: on every denied call the store is only pruned, never extended: the
key's stored events after the call equal the events before the call minus
the expired ones (memory path, given the returned decision is a denial) and
likewise for the Redis sorted set (whenever the Redis decision is a
denial). -/
theorem c6_denial_frame (store : String → List Req) (key : String) (M W w now : Int)
    (client : RedisClient) (d : Decision)
    (hd : (checkRateLimitMemory store key M W w now).1 = some d)
    (hdeny : d.allowed = false) :
    (checkRateLimitMemory store key M W w now).2 key =
      (store key).filter (fun r => decide (now - W < r.timestamp)) ∧
    ((checkRateLimitRedis client key M W w now).1.allowed = false →
      (checkRateLimitRedis client key M W w now).2.data ("ratelimit:" ++ key) =
        (client.data ("ratelimit:" ++ key)).filter fun s => decide (now - W < s)) := by
  constructor
  · rcases memCheck_spec store key M W w now with
      ⟨hp, hcw, h1, h2⟩ | ⟨o, rest, hp, hc, h1, hkey, hoth⟩ | ⟨hc, h1, hkey, hoth⟩
    · rw [h1] at hd; cases hd
    · exact hkey
    · rw [h1] at hd
      injection hd with h
      rw [← h] at hdeny
      simp at hdeny
  · intro hredisDeny
    rcases redisCheck_spec client key M W w now with
      ⟨hav, h1, h2⟩ | ⟨hav, hc, hra, hkey, hoth, hava⟩ | ⟨hav, hc, h1, hkey, hoth, hava⟩
    · rw [h1] at hredisDeny; simp at hredisDeny
    · exact hkey
    · rw [h1] at hredisDeny; simp at hredisDeny

/-- C6 witness: a concrete denied call (one live event, `maxRequests = 1`,
new request of weight 1) leaves exactly the pruned event list behind on
both paths. -/
theorem c6_denial_frame_witness :
    (checkRateLimitMemory oneEventStore "k" 1 100 1 10).2 "k" =
      (oneEventStore "k").filter (fun r => decide ((10 : Int) - 100 < r.timestamp)) ∧
    ((checkRateLimitRedis oneEventClient "k" 1 100 1 10).1.allowed = false →
      (checkRateLimitRedis oneEventClient "k" 1 100 1 10).2.data ("ratelimit:" ++ "k") =
        (oneEventClient.data ("ratelimit:" ++ "k")).filter
          fun s => decide ((10 : Int) - 100 < s)) :=
  c6_denial_frame oneEventStore "k" 1 100 1 10 oneEventClient deniedDecision rfl rfl

/-- C7 counterexample: the claim quantifies over every `checkRateLimit`
call, but with `windowMs = -1000` (which no validation rejects) the Redis
path denies a `weight = 1` call against `maxRequests = 0` with
`retryAfter = 0`, and `0 ≤ retryAfter ≤ ceil(windowMs/1000) = -1` fails. -/
theorem c7_retry_after_counterexample :
    (checkRateLimit { redisClient := some emptyClient, inMemoryStore := emptyStore }
        "k" 0 (-1000) 1 0).1 =
      some { allowed := false, remaining := 0, resetTime := 0, retryAfter := some 0 } ∧
    ¬ ((0 : Int) ≤ ceilDiv1000 (-1000)) :=
  ⟨rfl, by decide⟩

/-- C7 amended: `retryAfter` is present in the returned decision only when
`allowed = false`; and on every denied call, provided `windowMs ≥ 0` and
the recorded timestamps do not exceed `now`, it satisfies
`0 ≤ retryAfter ≤ ceil(windowMs / 1000)` — on both the in-memory and the
Redis path. -/
theorem c7_amended_retry_after (store : String → List Req) (key : String)
    (M W w now : Int) (client : RedisClient) (d : Decision)
    (hW : 0 ≤ W)
    (hmem : ∀ r ∈ store key, r.timestamp ≤ now)
    (hredis : ∀ s ∈ client.data ("ratelimit:" ++ key), s ≤ now)
    (hd : (checkRateLimitMemory store key M W w now).1 = some d) :
    ((d.allowed = true → d.retryAfter = none) ∧
     (d.allowed = false →
       ∃ ra, d.retryAfter = some ra ∧ 0 ≤ ra ∧ ra ≤ ceilDiv1000 W)) ∧
    (((checkRateLimitRedis client key M W w now).1.allowed = true →
        (checkRateLimitRedis client key M W w now).1.retryAfter = none) ∧
     ((checkRateLimitRedis client key M W w now).1.allowed = false →
        ∃ ra, (checkRateLimitRedis client key M W w now).1.retryAfter = some ra ∧
          0 ≤ ra ∧ ra ≤ ceilDiv1000 W)) := by
  constructor
  · rcases memCheck_spec store key M W w now with
      ⟨hp, hcw, h1, h2⟩ | ⟨o, rest, hp, hc, h1, hkey, hoth⟩ | ⟨hc, h1, hkey, hoth⟩
    · rw [h1] at hd; cases hd
    · rw [h1] at hd
      injection hd with h
      subst h
      constructor
      · intro hall; simp at hall
      · intro _
        have ho : o ∈ (store key).filter fun r => decide (now - W < r.timestamp) := by
          rw [hp]; exact List.mem_cons_self o rest
        have ho2 := List.mem_filter.mp ho
        have hlt : now - W < o.timestamp := of_decide_eq_true ho2.2
        have hle : o.timestamp ≤ now := hmem o ho2.1
        refine ⟨ceilDiv1000 (W - (now - o.timestamp)), rfl, ?_, ?_⟩
        · have := ceilDiv1000_pos (a := W - (now - o.timestamp)) (by omega)
          omega
        · exact ceilDiv1000_mono (by omega)
    · rw [h1] at hd
      injection hd with h
      subst h
      constructor
      · intro _; rfl
      · intro hfalse; simp at hfalse
  · rcases redisCheck_spec client key M W w now with
      ⟨hav, h1, h2⟩ | ⟨hav, hc, ⟨ra, hra, h1⟩, hkey, hoth, hava⟩ |
      ⟨hav, hc, h1, hkey, hoth, hava⟩
    · rw [h1]
      constructor
      · intro _; rfl
      · intro hfalse; simp at hfalse
    · rw [h1]
      constructor
      · intro htrue; simp at htrue
      · intro _
        refine ⟨ra, rfl, ?_⟩
        rcases hra with ⟨hm, hra0⟩ | ⟨m, hm, hram⟩
        · subst hra0
          exact ⟨le_refl 0, ceilDiv1000_nonneg hW⟩
        · subst hram
          have hmm := min?_mem_le hm
          have hmf := List.mem_filter.mp hmm.1
          have hlt : now - W < m := of_decide_eq_true hmf.2
          have hle : m ≤ now := hredis m hmf.1
          constructor
          · have := ceilDiv1000_pos (a := W - (now - m)) (by omega)
            omega
          · exact ceilDiv1000_mono (by omega)
    · rw [h1]
      constructor
      · intro _; rfl
      · intro hfalse; simp at hfalse

/-- C7 amended witness: the concrete denied call of `oneEventStore` /
`oneEventClient` at `now = 10`, `windowMs = 100` carries
`retryAfter = some 1` with `0 ≤ 1 ≤ ceil(100/1000) = 1`. -/
theorem c7_amended_witness :
    ((deniedDecision.allowed = true → deniedDecision.retryAfter = none) ∧
     (deniedDecision.allowed = false →
       ∃ ra, deniedDecision.retryAfter = some ra ∧ 0 ≤ ra ∧ ra ≤ ceilDiv1000 100)) ∧
    (((checkRateLimitRedis oneEventClient "k" 1 100 1 10).1.allowed = true →
        (checkRateLimitRedis oneEventClient "k" 1 100 1 10).1.retryAfter = none) ∧
     ((checkRateLimitRedis oneEventClient "k" 1 100 1 10).1.allowed = false →
        ∃ ra, (checkRateLimitRedis oneEventClient "k" 1 100 1 10).1.retryAfter = some ra ∧
          0 ≤ ra ∧ ra ≤ ceilDiv1000 100)) :=
  c7_amended_retry_after oneEventStore "k" 1 100 1 10 oneEventClient deniedDecision
    (by decide) (by decide) (by decide) rfl

theorem memCheck_post_bound (store : String → List Req) (key : String)
    (M W w now : Int) (hts : ∀ r ∈ store key, r.timestamp ≤ now) :
    ∀ r ∈ (checkRateLimitMemory store key M W w now).2 key, r.timestamp ≤ now := by
  rcases memCheck_spec store key M W w now with
    ⟨hp, hcw, h1, h2⟩ | ⟨o, rest, hp, hc, h1, hkey, hoth⟩ | ⟨hc, h1, hkey, hoth⟩
  · rw [h2]
    exact hts
  · rw [hkey]
    intro r hr
    exact hts r (List.mem_filter.mp hr).1
  · rw [hkey]
    intro r hr
    rcases List.mem_append.mp hr with h3 | h3
    · exact hts r (List.mem_filter.mp h3).1
    · simp at h3
      rw [h3]

theorem memCheck_second_allowed (store2 : String → List Req) (key : String)
    (M W w now2 : Int) (hM : ¬ (M < 0 + w))
    (hst : ∀ r ∈ store2 key, ¬ (now2 - W < r.timestamp)) :
    ∃ d2, (checkRateLimitMemory store2 key M W w now2).1 = some d2 ∧
      d2.allowed = true := by
  rcases memCheck_spec store2 key M W w now2 with
    ⟨hp, hcw, h1, h2⟩ | ⟨o, rest, hp, hc, h1, hkey, hoth⟩ | ⟨hc, h1, hkey, hoth⟩
  · exact absurd (by omega : M < 0 + w) hM
  · exfalso
    have ho : o ∈ (store2 key).filter fun r => decide (now2 - W < r.timestamp) := by
      rw [hp]; exact List.mem_cons_self o rest
    have h2 := List.mem_filter.mp ho
    exact hst o h2.1 (of_decide_eq_true h2.2)
  · exact ⟨_, h1, rfl⟩

theorem redisCheck_post_bound (client : RedisClient) (key : String)
    (M W w now : Int)
    (hcl : ∀ s ∈ client.data ("ratelimit:" ++ key), s ≤ now) :
    ∀ s ∈ (checkRateLimitRedis client key M W w now).2.data ("ratelimit:" ++ key),
      s ≤ now := by
  rcases redisCheck_spec client key M W w now with
    ⟨hav, h1, h2⟩ | ⟨hav, hc, hra, hkey, hoth, hava⟩ | ⟨hav, hc, h1, hkey, hoth, hava⟩
  · rw [h2]
    exact hcl
  · rw [hkey]
    intro s hs
    exact hcl s (List.mem_filter.mp hs).1
  · rw [hkey]
    intro s hs
    rcases List.mem_append.mp hs with h3 | h3
    · exact hcl s (List.mem_filter.mp h3).1
    · simp at h3
      omega

theorem redisCheck_allowed_of_stale (client : RedisClient) (key : String)
    (M W w now : Int) (hM : ¬ (M < 0 + w))
    (hst : ∀ s ∈ client.data ("ratelimit:" ++ key), ¬ (now - W < s)) :
    (checkRateLimitRedis client key M W w now).1.allowed = true := by
  rcases redisCheck_spec client key M W w now with
    ⟨hav, h1, h2⟩ | ⟨hav, hc, hra, hkey, hoth, hava⟩ | ⟨hav, hc, h1, hkey, hoth, hava⟩
  · rw [h1]
  · exfalso
    have hfil : (client.data ("ratelimit:" ++ key)).filter
        (fun s => decide (now - W < s)) = [] :=
      List.filter_eq_nil_iff.mpr (fun a ha => by simpa using hst a ha)
    rw [hfil] at hc
    simp at hc
    omega
  · rw [h1]

/-- C8: sliding-window expiry.  With `maxRequests = 1` and `weight = 1`, if
a call at time `t` is allowed (and every previously recorded timestamp is
at most `t`), then a second call on the same key at `t + windowMs + 1` is
allowed again on the in-memory path, and likewise on the Redis path — the
first event has aged out of the window. -/
theorem c8_expiry (store : String → List Req) (key : String) (W t : Int)
    (client : RedisClient) (d : Decision)
    (hts : ∀ r ∈ store key, r.timestamp ≤ t)
    (hcl : ∀ s ∈ client.data ("ratelimit:" ++ key), s ≤ t)
    (_hd : (checkRateLimitMemory store key 1 W 1 t).1 = some d)
    (_hall : d.allowed = true) :
    (∃ d2, (checkRateLimitMemory (checkRateLimitMemory store key 1 W 1 t).2
        key 1 W 1 (t + W + 1)).1 = some d2 ∧ d2.allowed = true) ∧
    (checkRateLimitRedis (checkRateLimitRedis client key 1 W 1 t).2
        key 1 W 1 (t + W + 1)).1.allowed = true := by
  constructor
  · refine memCheck_second_allowed _ key 1 W 1 (t + W + 1) (by omega) ?_
    intro r hr
    have := memCheck_post_bound store key 1 W 1 t hts r hr
    omega
  · refine redisCheck_allowed_of_stale _ key 1 W 1 (t + W + 1) (by omega) ?_
    intro s hs
    have := redisCheck_post_bound client key 1 W 1 t hcl s hs
    omega

/-- C8 witness: allowed at `t = 0` with `windowMs = 1000`, allowed again at
`t = 1001` on both paths. -/
theorem c8_expiry_witness :
    (∃ d2, (checkRateLimitMemory (checkRateLimitMemory emptyStore "k" 1 1000 1 0).2
        "k" 1 1000 1 (0 + 1000 + 1)).1 = some d2 ∧ d2.allowed = true) ∧
    (checkRateLimitRedis (checkRateLimitRedis emptyClient "k" 1 1000 1 0).2
        "k" 1 1000 1 (0 + 1000 + 1)).1.allowed = true :=
  c8_expiry emptyStore "k" 1000 0 emptyClient
    { allowed := true, remaining := 0, resetTime := 1000, retryAfter := none }
    (by simp [emptyStore]) (by simp [emptyClient]) rfl rfl

theorem memStep_allowed_sum (store : String → List Req) (key : String)
    (M W w now : Int) (d : Decision)
    (hnn : ∀ r ∈ store key, 0 ≤ r.weight) (hw : 0 ≤ w)
    (hd : (checkRateLimitMemory store key M W w now).1 = some d)
    (hall : d.allowed = true) :
    weightSum (((checkRateLimitMemory store key M W w now).2 key).filter
      fun r => decide (now - W < r.timestamp)) ≤ M := by
  rcases memCheck_spec store key M W w now with
    ⟨hp, hcw, h1, h2⟩ | ⟨o, rest, hp, hc, h1, hkey, hoth⟩ | ⟨hc, h1, hkey, hoth⟩
  · rw [h1] at hd; cases hd
  · rw [h1] at hd
    injection hd with h
    subst h
    simp at hall
  · rw [hkey]
    have hle1 : weightSum (List.filter (fun r => decide (now - W < r.timestamp))
          (List.filter (fun r => decide (now - W < r.timestamp)) (store key) ++
            [{ timestamp := now, weight := w }])) ≤
        weightSum (List.filter (fun r => decide (now - W < r.timestamp)) (store key) ++
          [{ timestamp := now, weight := w }]) := by
      apply weightSum_filter_le
      intro r hr
      rcases List.mem_append.mp hr with h3 | h3
      · exact hnn r (List.mem_filter.mp h3).1
      · simp at h3
        rw [h3]
        exact hw
    have hsum : weightSum (List.filter (fun r => decide (now - W < r.timestamp)) (store key) ++
          [{ timestamp := now, weight := w }]) =
        weightSum (List.filter (fun r => decide (now - W < r.timestamp)) (store key)) + w := by
      simp
    omega

theorem memCheck_post_nonneg (store : String → List Req) (key : String)
    (M W w now : Int)
    (hnn : ∀ k, ∀ r ∈ store k, 0 ≤ r.weight) (hw : 0 ≤ w) :
    ∀ k, ∀ r ∈ (checkRateLimitMemory store key M W w now).2 k, 0 ≤ r.weight := by
  rcases memCheck_spec store key M W w now with
    ⟨hp, hcw, h1, h2⟩ | ⟨o, rest, hp, hc, h1, hkey, hoth⟩ | ⟨hc, h1, hkey, hoth⟩ <;>
    intro k r hr
  · rw [h2] at hr
    exact hnn k r hr
  · by_cases hk : k = key
    · subst hk
      rw [hkey] at hr
      exact hnn k r (List.mem_filter.mp hr).1
    · rw [hoth k hk] at hr
      exact hnn k r hr
  · by_cases hk : k = key
    · subst hk
      rw [hkey] at hr
      rcases List.mem_append.mp hr with h3 | h3
      · exact hnn k r (List.mem_filter.mp h3).1
      · simp at h3
        rw [h3]
        exact hw
    · rw [hoth k hk] at hr
      exact hnn k r hr

theorem runUnitCalls_nonneg (key : String) (M W : Int) (ts : List Int) :
    ∀ store, (∀ k, ∀ r ∈ store k, 0 ≤ r.weight) →
      ∀ k, ∀ r ∈ runUnitCalls key M W ts store k, 0 ≤ r.weight := by
  induction ts with
  | nil =>
    intro store h k r hr
    exact h k r hr
  | cons t rest ih =>
    intro store h k r hr
    simp only [runUnitCalls] at hr
    exact ih _ (memCheck_post_nonneg store key M W 1 t h (by omega)) k r hr

/-- C1: window bound on the in-memory store.  For every sequence of
weight-1 `checkRateLimitMemory` calls on one key with fixed `maxRequests`
and `windowMs` (run from the empty store), after every call that returns
`allowed = true` the sum of weights of the key's non-expired recorded
events is at most `maxRequests`. -/
theorem c1_window_bound (key : String) (M W : Int) (ts : List Int) (t : Int)
    (d : Decision)
    (hd : (checkRateLimitMemory (runUnitCalls key M W ts emptyStore)
        key M W 1 t).1 = some d)
    (hall : d.allowed = true) :
    weightSum (((checkRateLimitMemory (runUnitCalls key M W ts emptyStore)
        key M W 1 t).2 key).filter
      fun r => decide (t - W < r.timestamp)) ≤ M := by
  have hnn := runUnitCalls_nonneg key M W ts emptyStore
    (fun k r hr => by simp [emptyStore] at hr)
  exact memStep_allowed_sum _ key M W 1 t d (hnn key) (by omega) hd hall

/-- C1 witness: a first allowed call at `t = 0` with `maxRequests = 1`,
`windowMs = 1000` leaves non-expired weight `1 ≤ 1`. -/
theorem c1_window_bound_witness :
    weightSum (((checkRateLimitMemory (runUnitCalls "k" 1 1000 [] emptyStore)
        "k" 1 1000 1 0).2 "k").filter
      fun r => decide ((0 : Int) - 1000 < r.timestamp)) ≤ 1 :=
  c1_window_bound "k" 1 1000 [] 0
    { allowed := true, remaining := 0, resetTime := 1000, retryAfter := none } rfl rfl

theorem memCheck_post_pairwise (store : String → List Req) (key : String)
    (M W w now : Int)
    (hs : ∀ k, List.Pairwise (fun a b : Req => a.timestamp ≤ b.timestamp) (store k))
    (hb : ∀ k, ∀ r ∈ store k, r.timestamp ≤ now) :
    (∀ k, List.Pairwise (fun a b : Req => a.timestamp ≤ b.timestamp)
        ((checkRateLimitMemory store key M W w now).2 k)) ∧
    (∀ k, ∀ r ∈ (checkRateLimitMemory store key M W w now).2 k,
      r.timestamp ≤ now) := by
  rcases memCheck_spec store key M W w now with
    ⟨hp, hcw, h1, h2⟩ | ⟨o, rest, hp, hc, h1, hkey, hoth⟩ | ⟨hc, h1, hkey, hoth⟩
  · rw [h2]
    exact ⟨hs, hb⟩
  · constructor <;> intro k
    · by_cases hk : k = key
      · subst hk
        rw [hkey]
        exact List.Pairwise.sublist (List.filter_sublist (store k)) (hs k)
      · rw [hoth k hk]
        exact hs k
    · intro r hr
      by_cases hk : k = key
      · subst hk
        rw [hkey] at hr
        exact hb k r (List.mem_filter.mp hr).1
      · rw [hoth k hk] at hr
        exact hb k r hr
  · constructor <;> intro k
    · by_cases hk : k = key
      · subst hk
        rw [hkey]
        rw [List.pairwise_append]
        refine ⟨List.Pairwise.sublist (List.filter_sublist (store k)) (hs k), by simp, ?_⟩
        intro a ha b hb2
        simp at hb2
        rw [hb2]
        exact hb k a (List.mem_filter.mp ha).1
      · rw [hoth k hk]
        exact hs k
    · intro r hr
      by_cases hk : k = key
      · subst hk
        rw [hkey] at hr
        rcases List.mem_append.mp hr with h3 | h3
        · exact hb k r (List.mem_filter.mp h3).1
        · simp at h3
          rw [h3]
      · rw [hoth k hk] at hr
        exact hb k r hr

theorem runMemCalls_pairwise (calls : List CallArgs) :
    ∀ store t0, List.Chain (· ≤ ·) t0 (calls.map CallArgs.time) →
      (∀ k, List.Pairwise (fun a b : Req => a.timestamp ≤ b.timestamp) (store k)) →
      (∀ k, ∀ r ∈ store k, r.timestamp ≤ t0) →
      ∀ k, List.Pairwise (fun a b : Req => a.timestamp ≤ b.timestamp)
        (runMemCalls calls store k) := by
  induction calls with
  | nil =>
    intro store t0 _ hs _ k
    simpa [runMemCalls] using hs k
  | cons c rest ih =>
    intro store t0 hch hs hb k
    rw [List.map_cons] at hch
    cases hch with
    | cons h1 h2 =>
      have hb2 : ∀ k2, ∀ r ∈ store k2, r.timestamp ≤ c.time :=
        fun k2 r hr => le_trans (hb k2 r hr) h1
      have hpost := memCheck_post_pairwise store c.key c.maxRequests c.windowMs
        c.weight c.time hs hb2
      simp only [runMemCalls]
      exact ih _ c.time h2 hpost.1 hpost.2 k

/-- C10: the in-memory store's event list for every key is always sorted
in non-decreasing timestamp order along any trace of `checkRateLimitMemory`
calls whose call times are non-decreasing (pruning filters in order, new
events are appended at the current, latest time), so `requests[0]` — the
head the denial branch reads — is always an oldest stored event. -/
theorem c10_sorted_invariant (calls : List CallArgs) (k : String) (x r : Req)
    (hmono : List.Chain' (· ≤ ·) (calls.map CallArgs.time))
    (hx : (runMemCalls calls emptyStore k).head? = some x)
    (hr : r ∈ runMemCalls calls emptyStore k) :
    List.Pairwise (fun a b : Req => a.timestamp ≤ b.timestamp)
      (runMemCalls calls emptyStore k) ∧
    x.timestamp ≤ r.timestamp := by
  have hpair : List.Pairwise (fun a b : Req => a.timestamp ≤ b.timestamp)
      (runMemCalls calls emptyStore k) := by
    cases calls with
    | nil => simp [runMemCalls, emptyStore]
    | cons c rest =>
      refine runMemCalls_pairwise (c :: rest) emptyStore c.time ?_ ?_ ?_ k
      · rw [List.map_cons]
        rw [List.map_cons] at hmono
        exact List.Chain.cons (le_refl c.time) hmono
      · intro k2
        simp [emptyStore]
      · intro k2 r2 hr2
        simp [emptyStore] at hr2
  refine ⟨hpair, ?_⟩
  cases hl : runMemCalls calls emptyStore k with
  | nil =>
    rw [hl] at hx
    cases hx
  | cons y tail =>
    rw [hl] at hx hr hpair
    simp only [List.head?_cons] at hx
    injection hx with hx2
    subst hx2
    rcases List.mem_cons.mp hr with h3 | h3
    · rw [h3]
    · exact (List.pairwise_cons.mp hpair).1 r h3

/-- C10 witness: two weight-1 calls at times 0 and 5 leave the sorted list
`[{0,1}, {5,1}]`, with the head the oldest event. -/
theorem c10_sorted_invariant_witness :
    List.Pairwise (fun a b : Req => a.timestamp ≤ b.timestamp)
      (runMemCalls twoCalls emptyStore "k") ∧
    ({ timestamp := 0, weight := 1 } : Req).timestamp ≤
      ({ timestamp := 5, weight := 1 } : Req).timestamp :=
  c10_sorted_invariant twoCalls "k" { timestamp := 0, weight := 1 }
    { timestamp := 5, weight := 1 } (by simp [twoCalls]) rfl (by decide)

end RateLimiter
